import Mathlib

/-!
# Verification of the stoper_app timer and log store

Shallow embedding of the core logic of `src/stoper_app.pyw` (the effective
`StopwatchApp` class, i.e. the second definition in the file, which shadows
the first at runtime).  Timer state is modelled with exact rational time in
seconds (idealising Python floats); the log file is modelled as an optional
list of text lines plus the byte size reported by the OS.

The file first gives the embedded definitions, then the supporting lemmas,
then one theorem per specification claim.
-/

/-! ## Python string primitives -/

/-- Characters treated as whitespace by Python `str.strip()` / `int()`. -/
def pyIsSpace (c : Char) : Bool :=
  c = ' ' || c = '\t' || c = '\n' || c = '\r' || c = '\x0b' || c = '\x0c'

/-- Model of Python `str.strip()` on a character list. -/
def pyStrip (cs : List Char) : List Char :=
  ((cs.dropWhile pyIsSpace).reverse.dropWhile pyIsSpace).reverse

/-- Model of Python `s.split(" ")[0]`: the prefix before the first space. -/
def pyHead (s : String) : String :=
  ⟨s.data.takeWhile (fun c => c ≠ ' ')⟩

/-- Splits a character list on a separator character (model of `str.split`). -/
def splitChar (sep : Char) : List Char → List (List Char)
  | [] => [[]]
  | c :: cs =>
    if c = sep then [] :: splitChar sep cs
    else
      match splitChar sep cs with
      | [] => [[c]]
      | g :: gs => (c :: g) :: gs

/-- Numeric value of a digit character. -/
def digitVal (c : Char) : ℕ := c.toNat - 48

/-- Parses a nonempty run of decimal digits, accumulator style; `none` on any
non-digit character. -/
def parseDigitsAcc : List Char → ℕ → Option ℕ
  | [], a => some a
  | c :: cs, a => if c.isDigit then parseDigitsAcc cs (10 * a + digitVal c) else none

/-- Continues a digit run after its first digit, allowing PEP 515 underscore
grouping as Python `int()` does: an underscore must stand between two
digits (`1_0` parses, `1__0`, `1_` and `_1` do not). -/
def parseDigitsU : List Char → ℕ → Option ℕ
  | [], a => some a
  | [c], a => if c.isDigit then some (10 * a + digitVal c) else none
  | c :: c2 :: cs, a =>
    if c = '_' then
      (if c2.isDigit then parseDigitsU cs (10 * a + digitVal c2) else none)
    else if c.isDigit then parseDigitsU (c2 :: cs) (10 * a + digitVal c) else none

/-- Parses a nonempty digit run (underscore grouping allowed after the first
digit) to a natural number. -/
def parseNatDigits (cs : List Char) : Option ℕ :=
  match cs with
  | [] => none
  | c :: rest => if c.isDigit then parseDigitsU rest (digitVal c) else none

/-- Model of Python `int(s)`: optional surrounding whitespace, optional sign,
then decimal digits; `none` on anything else. -/
def pyInt (s : String) : Option ℤ :=
  match pyStrip s.data with
  | [] => none
  | c :: rest =>
    if c = '-' then (parseNatDigits rest).map (fun n => -(n : ℤ))
    else if c = '+' then (parseNatDigits rest).map (fun n => (n : ℤ))
    else (parseNatDigits (c :: rest)).map (fun n => (n : ℤ))

/-- Decimal digit characters of `n`, least significant first; the fuel argument
makes the recursion structural and must be at least `n`. -/
def natCharsRev : ℕ → ℕ → List Char
  | 0, _ => []
  | _ + 1, 0 => []
  | fuel + 1, n + 1 => Nat.digitChar ((n + 1) % 10) :: natCharsRev fuel ((n + 1) / 10)

/-- Model of Python `str(n)` for a natural number. -/
def pyStrOfNat (n : ℕ) : String :=
  if n = 0 then "0" else ⟨(natCharsRev n n).reverse⟩

/-- Model of Python `str(m)` for an integer. -/
def pyStrOfInt (m : ℤ) : String :=
  if m < 0 then "-" ++ pyStrOfNat m.natAbs else pyStrOfNat m.natAbs

/-! ## Dates: model of `datetime.strptime(_, "%Y-%m-%d").date()` -/

/-- A Python `datetime.date`. -/
structure PyDate where
  year : ℕ
  month : ℕ
  day : ℕ
deriving DecidableEq, Repr

/-- Gregorian leap-year test, as implemented by Python `datetime`. -/
def isLeapYear (y : ℕ) : Bool :=
  (y % 4 = 0 && y % 100 ≠ 0) || y % 400 = 0

/-- Number of days in a month of a given year. -/
def daysInMonth (y m : ℕ) : ℕ :=
  if m = 2 then (if isLeapYear y then 29 else 28)
  else if m = 4 ∨ m = 6 ∨ m = 9 ∨ m = 11 then 30
  else 31

/-- Checks one numeric component of a `%Y-%m-%d` pattern: nonempty, at most
`w` digits. -/
def dateComponentOk (cs : List Char) (w : ℕ) : Bool :=
  cs ≠ [] && cs.length ≤ w && cs.all Char.isDigit

/-- Numeric value of an all-digit component. -/
def digitsVal (cs : List Char) : ℕ :=
  cs.foldl (fun a c => 10 * a + digitVal c) 0

/-- Model of `datetime.strptime(s, "%Y-%m-%d").date()`: three dash-separated
digit groups with calendar validation; `none` where Python raises
`ValueError`.  CPython's `%Y` matches exactly four digits, `%m`/`%d` one or
two. -/
def pyStrptimeDate (s : String) : Option PyDate :=
  match splitChar '-' s.data with
  | [ys, ms, ds] =>
    if (ys.length == 4 && ys.all Char.isDigit)
        && dateComponentOk ms 2 && dateComponentOk ds 2 then
      let y := digitsVal ys
      let m := digitsVal ms
      let d := digitsVal ds
      if 1 ≤ y ∧ 1 ≤ m ∧ m ≤ 12 ∧ 1 ≤ d ∧ d ≤ daysInMonth y m then
        some ⟨y, m, d⟩
      else none
    else none
  | _ => none

/-- Linear key realising the calendar order on dates. -/
def dateKey (d : PyDate) : ℕ := d.year * 10000 + d.month * 100 + d.day

/-- Python `date` order (`d1 <= d2`). -/
def dateLe (a b : PyDate) : Prop := dateKey a ≤ dateKey b

instance : DecidablePred fun p : PyDate × PyDate => dateLe p.1 p.2 :=
  fun _ => Nat.decLe _ _

instance (a b : PyDate) : Decidable (dateLe a b) := Nat.decLe _ _

/-! ## CSV with delimiter `;` and `QUOTE_ALL` (models `csv.writer`/`csv.reader`) -/

/-- Doubles every quote character (the `doublequote` escaping of `csv`). -/
def escQ : List Char → List Char
  | [] => []
  | c :: cs => if c = '"' then '"' :: '"' :: escQ cs else c :: escQ cs

/-- One field as written under `QUOTE_ALL`: quoted, inner quotes doubled. -/
def quoteField (s : String) : List Char :=
  '"' :: (escQ s.data ++ ['"'])

/-- Joins field texts with the `;` delimiter. -/
def joinSemi : List (List Char) → List Char
  | [] => []
  | [x] => x
  | x :: xs => x ++ ';' :: joinSemi xs

/-- Model of `csv.writer(..., delimiter=';', quoting=csv.QUOTE_ALL).writerow`:
the text of the written line (without the line terminator). -/
def csvWriteRow (fields : List String) : String :=
  ⟨joinSemi (fields.map quoteField)⟩

/-- Parser states of the `csv.reader` field automaton. -/
inductive CsvSt where
  | startF
  | inF
  | inQ
  | quoteInQ
deriving DecidableEq, Repr

/-- The `csv.reader` automaton (non-strict dialect, delimiter `;`, quote `"`),
running over one line: `acc` is the text of the current field. -/
def csvGo : CsvSt → List Char → List Char → List String
  | _, acc, [] => [⟨acc⟩]
  | .startF, acc, c :: cs =>
    if c = '"' then csvGo .inQ acc cs
    else if c = ';' then ⟨acc⟩ :: csvGo .startF [] cs
    else csvGo .inF (acc ++ [c]) cs
  | .inF, acc, c :: cs =>
    if c = ';' then ⟨acc⟩ :: csvGo .startF [] cs
    else csvGo .inF (acc ++ [c]) cs
  | .inQ, acc, c :: cs =>
    if c = '"' then csvGo .quoteInQ acc cs
    else csvGo .inQ (acc ++ [c]) cs
  | .quoteInQ, acc, c :: cs =>
    if c = '"' then csvGo .inQ (acc ++ [c]) cs
    else if c = ';' then ⟨acc⟩ :: csvGo .startF [] cs
    else csvGo .inF (acc ++ [c]) cs

/-- The row `csv.reader` yields for one self-contained line (a line that does
not end inside an open quoted field; an empty line yields the empty row,
which the app skips).  File-level chunking, where a quoted field continues
across physical lines, is `csvReaderRows` below; the two agree on files
whose lines are all self-contained (`csvReaderRows_of_closed`), which
includes every line `save_to_log` writes (`lineClosed_writeRow`). -/
def csvParseLine (s : String) : List String :=
  match s.data with
  | [] => []
  | c :: cs => csvGo .startF [] (c :: cs)

/-- The `csv.reader` automaton over one physical line, record-aware: `flds`
are the completed fields of the current record, `acc` the current field.
Returns the finished row when the line ends outside a quoted field, and the
pending `(fields, current field)` when the line ends inside one — in which
case the real reader continues the record on the next physical line. -/
def csvGoLine : CsvSt → List String → List Char → List Char →
    List String ⊕ (List String × List Char)
  | .inQ, flds, acc, [] => .inr (flds, acc)
  | _, flds, acc, [] => .inl (flds ++ [⟨acc⟩])
  | .startF, flds, acc, c :: cs =>
    if c = '"' then csvGoLine .inQ flds acc cs
    else if c = ';' then csvGoLine .startF (flds ++ [⟨acc⟩]) [] cs
    else csvGoLine .inF flds (acc ++ [c]) cs
  | .inF, flds, acc, c :: cs =>
    if c = ';' then csvGoLine .startF (flds ++ [⟨acc⟩]) [] cs
    else csvGoLine .inF flds (acc ++ [c]) cs
  | .inQ, flds, acc, c :: cs =>
    if c = '"' then csvGoLine .quoteInQ flds acc cs
    else csvGoLine .inQ flds (acc ++ [c]) cs
  | .quoteInQ, flds, acc, c :: cs =>
    if c = '"' then csvGoLine .inQ flds (acc ++ [c]) cs
    else if c = ';' then csvGoLine .startF (flds ++ [⟨acc⟩]) [] cs
    else csvGoLine .inF flds (acc ++ [c]) cs

/-- A line is self-contained when the automaton finishes it outside an open
quoted field, so `csv.reader` ends the record at this line's terminator. -/
def lineClosed (s : String) : Bool :=
  match s.data with
  | [] => true
  | c :: cs =>
    match csvGoLine .startF [] [] (c :: cs) with
    | .inl _ => true
    | .inr _ => false

/-- Runs `csv.reader` (file opened with `newline=''`) over the remaining
physical lines: a record whose quoted field is left open at a line's end
continues on the next line, the `\r\n` terminator becoming field content;
at end of file a pending record is yielded with its partial field (every
stored line is `\r\n`-terminated, as `csv.writer` writes them). -/
def csvReaderAux : Option (List String × List Char) → List String → List (List String)
  | none, [] => []
  | some (flds, acc), [] => [flds ++ [⟨acc ++ ['\r', '\n']⟩]]
  | none, line :: rest =>
    match line.data with
    | [] => [] :: csvReaderAux none rest
    | c :: cs =>
      match csvGoLine .startF [] [] (c :: cs) with
      | .inl row => row :: csvReaderAux none rest
      | .inr st => csvReaderAux (some st) rest
  | some (flds, acc), line :: rest =>
    match csvGoLine .inQ flds (acc ++ ['\r', '\n']) line.data with
    | .inl row => row :: csvReaderAux none rest
    | .inr st => csvReaderAux (some st) rest

/-- The rows `csv.reader` yields for a whole file given as its lines. -/
def csvReaderRows (lines : List String) : List (List String) :=
  csvReaderAux none lines


/-! ## Timer state (core state of the effective `StopwatchApp`) -/

/-- The timer-relevant fields of `StopwatchApp.__init__` (second, effective
class definition): `is_running`, `counter`, `start_timestamp`,
`elapsed_time_before_pause`, `current_task`, `last_logged_minute_mark`.
Wall-clock instants and durations are rational seconds. -/
structure TimerState where
  is_running : Bool
  counter : ℚ
  start_timestamp : Option ℚ
  elapsed_time_before_pause : ℚ
  current_task : String
  last_logged_minute_mark : ℤ
deriving DecidableEq, Repr

/-- The all-zero initial state created at process start. -/
def initState : TimerState :=
  { is_running := false, counter := 0, start_timestamp := none,
    elapsed_time_before_pause := 0, current_task := "",
    last_logged_minute_mark := 0 }

/-- `StopwatchApp.start`: no-op when already running; otherwise stores the
stripped task text, sets `is_running` and records `start_timestamp = now`
(the source sets it to `datetime.now()` in both branches of its `if`). -/
def start (task : String) (now : ℚ) (s : TimerState) : TimerState :=
  if s.is_running then s
  else { s with is_running := true,
                current_task := ⟨pyStrip task.data⟩,
                start_timestamp := some now }

/-- `StopwatchApp.stop`: no-op when already paused; otherwise folds the open
interval into `elapsed_time_before_pause` and refreshes `counter`.  The
source does not clear `start_timestamp` here. -/
def stop (now : ℚ) (s : TimerState) : TimerState :=
  if s.is_running then
    match s.start_timestamp with
    | some t =>
      { s with is_running := false,
               elapsed_time_before_pause := s.elapsed_time_before_pause + (now - t),
               counter := s.elapsed_time_before_pause + (now - t) }
    | none => { s with is_running := false }
  else s

/-- `AppConfig.RESET_CONFIRMATION_SECONDS`. -/
def RESET_CONFIRMATION_SECONDS : ℚ := 600

/-- `StopwatchApp.reset`: when `counter` exceeds the confirmation threshold a
confirmation dialog is shown (`confirm` is the user's answer) and a refusal
returns with the state untouched; otherwise all core fields are zeroed. -/
def reset (confirm : Bool) (s : TimerState) : TimerState :=
  if RESET_CONFIRMATION_SECONDS < s.counter ∧ confirm = false then s
  else
    { is_running := false, counter := 0, start_timestamp := none,
      elapsed_time_before_pause := 0, current_task := "",
      last_logged_minute_mark := 0 }

/-- `StopwatchApp.adjust_time`: adds `seconds` to both `counter` and
`elapsed_time_before_pause`, each clamped at zero. -/
def adjust_time (seconds : ℤ) (s : TimerState) : TimerState :=
  { s with counter := max 0 (s.counter + (seconds : ℚ)),
           elapsed_time_before_pause := max 0 (s.elapsed_time_before_pause + (seconds : ℚ)) }

/-- The elapsed value as recomputed by `StopwatchApp.update_display` at time
`now`: `elapsed_time_before_pause + (now - start_timestamp)` while running,
the frozen `counter` otherwise. -/
def elapsed (now : ℚ) (s : TimerState) : ℚ :=
  if s.is_running then
    match s.start_timestamp with
    | some t => s.elapsed_time_before_pause + (now - t)
    | none => s.counter
  else s.counter

/-- `int(self.counter // 60)`: the whole minutes on the counter. -/
def sessionMinutes (s : TimerState) : ℤ := ⌊s.counter / 60⌋

/-- A user-interface event acting on the timer. -/
inductive TimerEv where
  | startEv (task : String)
  | stopEv
deriving DecidableEq, Repr

/-- Applies one timestamped event to the timer state. -/
def applyEv (s : TimerState) (e : TimerEv × ℚ) : TimerState :=
  match e with
  | (.startEv task, t) => start task t s
  | (.stopEv, t) => stop t s

/-- Runs a sequence of timestamped start/stop events from the initial state. -/
def runEvents (evs : List (TimerEv × ℚ)) : TimerState :=
  evs.foldl applyEv initState

/-! ## Interval bookkeeping taken from the specification's words (for C1) -/

/-- Modelled from the spec: the closed running intervals and the open one,
accumulated directly from the event sequence ("the sum of the durations of
all closed running intervals plus the currently open one"). -/
structure IntervalAcc where
  running : Bool
  openStart : ℚ
  closed : ℚ
deriving DecidableEq, Repr

/-- One event of the specification-side interval bookkeeping: a redundant
`start`/`stop` is an idempotent no-op. -/
def specStep (a : IntervalAcc) (e : TimerEv × ℚ) : IntervalAcc :=
  match e with
  | (.startEv _, t) => if a.running then a else { a with running := true, openStart := t }
  | (.stopEv, t) =>
    if a.running then
      { running := false, openStart := a.openStart, closed := a.closed + (t - a.openStart) }
    else a

/-- Interval bookkeeping of a whole event sequence. -/
def specIntervals (evs : List (TimerEv × ℚ)) : IntervalAcc :=
  evs.foldl specStep { running := false, openStart := 0, closed := 0 }

/-- The specification's elapsed value: closed intervals plus the open one. -/
def specElapsed (evs : List (TimerEv × ℚ)) (now : ℚ) : ℚ :=
  (specIntervals evs).closed +
    (if (specIntervals evs).running then now - (specIntervals evs).openStart else 0)

/-! ## The log store -/

/-- The part of the file system the log store touches: the lines of
`wynik-stoper.csv` (`none` when the file does not exist), its `st_size` in
bytes, and the backup file `wynik-stoper.csv.bak`. -/
structure LogFS where
  log : Option (List String)
  logSize : ℕ
  backup : Option (List String)
deriving DecidableEq, Repr

/-- The header row written to a fresh log file. -/
def headerLine : String := csvWriteRow ["Data", "Minuty", "Zadanie"]

/-- Byte size of written lines (each line is terminated by `\r\n`). -/
def linesByteSize (ls : List String) : ℕ :=
  (ls.map (fun l => l.utf8ByteSize + 2)).foldl (· + ·) 0

/-- `StopwatchApp.save_to_log`: substitutes the `"Bez opisu"` sentinel for a
blank task, makes a backup copy when the file exceeds 1 MiB, writes the
header when the file is missing or empty, then appends one `QUOTE_ALL` CSV
row `timestamp;minutes;task`.  `copyFails`/`writeFails` model an `IOError`
raised by `shutil.copy2` respectively by the write; either lands in the
single `except IOError` handler, which returns `False` — in particular a
failing backup copy aborts the append. -/
def save_to_log (copyFails writeFails : Bool) (timestamp : String) (minutes : ℤ)
    (current_task : String) (fs : LogFS) : LogFS × Bool :=
  let task_desc := if current_task = "" then "Bez opisu" else current_task
  let file_exists := fs.log.isSome && decide (0 < fs.logSize)
  let needsBackup := fs.log.isSome && decide (1024 * 1024 < fs.logSize)
  if needsBackup && copyFails then (fs, false)
  else
    let fs1 := if needsBackup then { fs with backup := fs.log } else fs
    if writeFails then (fs1, false)
    else
      let newLines :=
        (if file_exists then [] else [headerLine]) ++
          [csvWriteRow [timestamp, pyStrOfInt minutes, task_desc]]
      ({ fs1 with log := some (fs1.log.getD [] ++ newLines),
                  logSize := fs1.logSize + linesByteSize newLines }, true)

/-- The parsed data rows of the log under the per-line reader model, with the
first row (the header) skipped — both readers do `next(reader, None)`.
This agrees with the faithful multi-line chunking (`readerRecordRows`)
whenever every line of the file is self-contained, which holds for every
line the app itself writes; it diverges only on a line that leaves a
quoted field open. -/
def recordRows (fs : LogFS) : List (List String) :=
  match fs.log with
  | none => []
  | some lines => (lines.map csvParseLine).drop 1

/-- One iteration of the loop of `StopwatchApp.read_and_sum_today`: empty rows
and rows of fewer than three fields are skipped, then the date is parsed and,
when it equals today, the minutes field parsed and added; a parse failure
(`ValueError`) leaves the total untouched. -/
def sumRowStep (today : PyDate) (total : ℤ) (row : List String) : ℤ :=
  match row with
  | ts :: ms :: _ :: _ =>
    match pyStrptimeDate (pyHead ts) with
    | some d =>
      if d = today then
        match pyInt ms with
        | some m => total + m
        | none => total
      else total
    | none => total
  | _ => total

/-- `StopwatchApp.read_and_sum_today`: 0 for a missing file, otherwise the
loop above over the data rows. -/
def read_and_sum_today (today : PyDate) (fs : LogFS) : ℤ :=
  (recordRows fs).foldl (sumRowStep today) 0

/-- A record as returned by `load_history_data`: `(timestamp, minutes, task)`. -/
abbrev LogRec := String × ℤ × String

/-- Parses one data row the way `StopwatchApp.load_history_data` does:
`row[0], row[1], row[2]` with `int(row[1])` and
`strptime(row[0].split(" ")[0], "%Y-%m-%d")`; `none` on wrong field count or
a `ValueError` from either parse. -/
def parseLogRow (row : List String) : Option (PyDate × LogRec) :=
  match row with
  | ts :: ms :: task :: _ =>
    match pyInt ms with
    | some m =>
      match pyStrptimeDate (pyHead ts) with
      | some d => some (d, (ts, m, task))
      | none => none
    | none => none
  | _ => none

/-- Python `dict` insertion: appends the record to the date's list, creating
the date's entry at the end on first insertion. -/
def dictAppend (data : List (PyDate × List LogRec)) (d : PyDate) (r : LogRec) :
    List (PyDate × List LogRec) :=
  match data with
  | [] => [(d, [r])]
  | (k, l) :: rest =>
    if k = d then (k, l ++ [r]) :: rest else (k, l) :: dictAppend rest d r

/-- One iteration of the loop of `StopwatchApp.load_history_data`: malformed
rows are skipped, well-formed records inside the date range are grouped by
date. -/
def loadRowStep (sd ed : PyDate) (data : List (PyDate × List LogRec))
    (row : List String) : List (PyDate × List LogRec) :=
  match parseLogRow row with
  | some (d, r) => if dateLe sd d ∧ dateLe d ed then dictAppend data d r else data
  | none => data

/-- `StopwatchApp.load_history_data`: the date-grouped records of the range,
in file order within a day, dates in order of first appearance. -/
def load_history_data (sd ed : PyDate) (fs : LogFS) : List (PyDate × List LogRec) :=
  (recordRows fs).foldl (loadRowStep sd ed) []

/-- Total number of records over all date groups. -/
def recCount (data : List (PyDate × List LogRec)) : ℕ :=
  (data.map (fun p => p.2.length)).sum

/-- The data rows of the log as the real `csv.reader` chunks them (a quoted
field left open at a line's end continues the record across lines), header
record skipped by `next(reader, None)`. -/
def readerRecordRows (fs : LogFS) : List (List String) :=
  match fs.log with
  | none => []
  | some lines => (csvReaderRows lines).drop 1

/-- `StopwatchApp.load_history_data` over the multi-line-faithful reader:
identical loop body, but the rows come from `csv.reader`'s actual record
chunking of the file. -/
def load_history_data_reader (sd ed : PyDate) (fs : LogFS) :
    List (PyDate × List LogRec) :=
  (readerRecordRows fs).foldl (loadRowStep sd ed) []

/-- Outcome of `StopwatchApp.add_to_log`. -/
inductive SaveOutcome where
  | tooShort
  | saved
  | failed
deriving DecidableEq, Repr

/-- `StopwatchApp.add_to_log`: computes the whole minutes from `counter`,
refuses sessions under one minute, stops a running timer, appends via
`save_to_log`, and on success resets the timer — but only when the
`auto_save` configuration flag is set, and subject to `reset`'s own
confirmation dialog (`confirmReset`). -/
def add_to_log (now : ℚ) (ts : String) (autoSave confirmReset copyFails writeFails : Bool)
    (s : TimerState) (fs : LogFS) : TimerState × LogFS × SaveOutcome :=
  let minutes := sessionMinutes s
  if minutes < 1 then (s, fs, .tooShort)
  else
    let s1 := if s.is_running then stop now s else s
    let res := save_to_log copyFails writeFails ts minutes s1.current_task fs
    if res.2 then
      ((if autoSave then reset confirmReset s1 else s1), res.1, .saved)
    else (s1, res.1, .failed)

/-- `StopwatchApp.update_progress`'s percentage:
`(total / daily_goal) * 100 if daily_goal > 0 else 0`. -/
def update_progress_percentage (total_with_current : ℤ) (daily_goal : ℤ) : ℚ :=
  if 0 < daily_goal then ((total_with_current : ℚ) / (daily_goal : ℚ)) * 100 else 0

/-- The `total_with_current` of `StopwatchApp.update_progress`: today's logged
minutes plus the whole minutes on the counter. -/
def update_progress_total (today : PyDate) (fs : LogFS) (s : TimerState) : ℤ :=
  read_and_sum_today today fs + sessionMinutes s

/-- Modelled from the spec: the minutes contributed by one data row to a given
date's aggregate — `some m` exactly for a well-formed record (three or more
fields, parseable date equal to `today`, parseable integer minutes `m`),
`none` otherwise. -/
def rowMinutesOn (today : PyDate) (row : List String) : Option ℤ :=
  match row with
  | ts :: ms :: _ :: _ =>
    match pyStrptimeDate (pyHead ts) with
    | some d => if d = today then pyInt ms else none
    | none => none
  | _ => none

/-- Simulation relation between the embedded timer state and the
specification's interval bookkeeping. -/
def TimerAgrees (s : TimerState) (a : IntervalAcc) : Prop :=
  s.is_running = a.running ∧
  s.elapsed_time_before_pause = a.closed ∧
  (a.running = true → s.start_timestamp = some a.openStart) ∧
  (a.running = false → s.counter = a.closed)

/-! ## Concrete data used by witnesses and counterexamples -/

/-- A trace ending in the running state. -/
def c1Evs : List (TimerEv × ℚ) := [(.startEv "a", 0), (.stopEv, 3), (.startEv "b", 10)]

/-- A trace ending in the paused state. -/
def c1EvsPaused : List (TimerEv × ℚ) := [(.startEv "a", 0), (.stopEv, 3)]

/-- A paused state with 20 minutes on the counter. -/
def c5State : TimerState :=
  { is_running := false, counter := 1200, start_timestamp := none,
    elapsed_time_before_pause := 1200, current_task := "praca",
    last_logged_minute_mark := 0 }

/-- A paused state with 100 seconds banked. -/
def c6State : TimerState :=
  { is_running := false, counter := 100, start_timestamp := none,
    elapsed_time_before_pause := 100, current_task := "",
    last_logged_minute_mark := 0 }

/-- A log file over the 1 MiB backup threshold. -/
def c8FS : LogFS := ⟨some [headerLine], 2000000, none⟩

/-- A paused timer holding a two-minute session, with `auto_save` off in the
counterexample run. -/
def c9Timer : TimerState :=
  { is_running := false, counter := 120, start_timestamp := none,
    elapsed_time_before_pause := 120, current_task := "zadanie",
    last_logged_minute_mark := 0 }

/-- A paused timer holding a three-minute session. -/
def c9TimerW : TimerState :=
  { is_running := false, counter := 180, start_timestamp := none,
    elapsed_time_before_pause := 180, current_task := "praca",
    last_logged_minute_mark := 0 }

/-- A paused state with 30 seconds on the counter. -/
def c10State : TimerState :=
  { is_running := false, counter := 30, start_timestamp := none,
    elapsed_time_before_pause := 30, current_task := "x",
    last_logged_minute_mark := 0 }

/-! ## Lemmas: timer versus interval bookkeeping -/

theorem timerAgrees_init : TimerAgrees initState { running := false, openStart := 0, closed := 0 } := by
  exact ⟨rfl, rfl, fun h => by simp at h, fun _ => rfl⟩

theorem timerAgrees_step (s : TimerState) (a : IntervalAcc) (e : TimerEv × ℚ)
    (h : TimerAgrees s a) : TimerAgrees (applyEv s e) (specStep a e) := by
  obtain ⟨h1, h2, h3, h4⟩ := h
  obtain ⟨ev, t⟩ := e
  cases ev with
  | startEv task =>
    cases hr : a.running with
    | true =>
      have hs : s.is_running = true := h1.trans hr
      simp [applyEv, specStep, start, hr, hs]
      exact ⟨h1, h2, h3, h4⟩
    | false =>
      have hs : s.is_running = false := h1.trans hr
      simp only [applyEv, specStep, start, hr, hs, Bool.false_eq_true, if_false]
      exact ⟨rfl, h2, fun _ => rfl, fun hf => by simp at hf⟩
  | stopEv =>
    cases hr : a.running with
    | true =>
      have hs : s.is_running = true := h1.trans hr
      have hts : s.start_timestamp = some a.openStart := h3 hr
      simp only [applyEv, specStep, stop, hr, hs, hts, h2, if_true]
      exact ⟨rfl, rfl, fun hf => by simp at hf, fun _ => rfl⟩
    | false =>
      have hs : s.is_running = false := h1.trans hr
      simp [applyEv, specStep, stop, hr, hs]
      exact ⟨h1, h2, h3, h4⟩

theorem timerAgrees_fold (evs : List (TimerEv × ℚ)) :
    ∀ (s : TimerState) (a : IntervalAcc), TimerAgrees s a →
      TimerAgrees (evs.foldl applyEv s) (evs.foldl specStep a) := by
  induction evs with
  | nil => intro s a h; exact h
  | cons e evs ih =>
    intro s a h
    exact ih _ _ (timerAgrees_step s a e h)

theorem elapsed_of_agrees (s : TimerState) (a : IntervalAcc) (now : ℚ)
    (h : TimerAgrees s a) :
    elapsed now s = a.closed + (if a.running then now - a.openStart else 0) := by
  obtain ⟨h1, h2, h3, h4⟩ := h
  cases hr : a.running with
  | true =>
    have hs : s.is_running = true := h1.trans hr
    have hts : s.start_timestamp = some a.openStart := h3 hr
    simp [elapsed, hs, hts, h2]
  | false =>
    have hs : s.is_running = false := h1.trans hr
    simp [elapsed, hs, h4 hr]

/-- C1: over every finite sequence of timestamped start/stop events, the
elapsed value recomputed by `update_display` equals the sum of the closed
running intervals plus the open one, and a `start` while running or a `stop`
while paused is a no-op for the elapsed value. -/
theorem c1_elapsed_is_interval_sum (evs : List (TimerEv × ℚ)) (now : ℚ) :
    elapsed now (runEvents evs) = specElapsed evs now ∧
    (∀ task t, (runEvents evs).is_running = true →
      elapsed now (start task t (runEvents evs)) = elapsed now (runEvents evs)) ∧
    (∀ t, (runEvents evs).is_running = false →
      elapsed now (stop t (runEvents evs)) = elapsed now (runEvents evs)) := by
  refine ⟨?_, ?_, ?_⟩
  · exact elapsed_of_agrees _ _ now (timerAgrees_fold evs initState _ timerAgrees_init)
  · intro task t h
    simp [start, h]
  · intro t h
    simp [stop, h]

theorem c1_witness :
    elapsed 14 (runEvents c1Evs) = specElapsed c1Evs 14 ∧
    elapsed 14 (start "c" 12 (runEvents c1Evs)) = elapsed 14 (runEvents c1Evs) ∧
    elapsed 14 (stop 12 (runEvents c1EvsPaused)) = elapsed 14 (runEvents c1EvsPaused) :=
  ⟨(c1_elapsed_is_interval_sum c1Evs 14).1,
   (c1_elapsed_is_interval_sum c1Evs 14).2.1 "c" 12 rfl,
   (c1_elapsed_is_interval_sum c1EvsPaused 14).2.2 12 rfl⟩

/-! ## C5: reset -/

/-- C5 counterexample: with more than `RESET_CONFIRMATION_SECONDS` on the
counter and the confirmation dialog answered "no", `reset` returns without
reaching the zero state — it is not unconditional. -/
theorem c5_counterexample : elapsed 0 (reset false c5State) ≠ 0 := by
  norm_num [reset, elapsed, c5State, RESET_CONFIRMATION_SECONDS]

/-- C5 (amended): whenever the counter is within the 600-second confirmation
threshold or the user confirms, `reset` reaches the zero state: elapsed 0,
paused, interval start cleared, task label cleared. -/
theorem c5_reset_reaches_zero (s : TimerState) (confirm : Bool) (now : ℚ)
    (h : s.counter ≤ RESET_CONFIRMATION_SECONDS ∨ confirm = true) :
    elapsed now (reset confirm s) = 0 ∧ (reset confirm s).is_running = false ∧
    (reset confirm s).start_timestamp = none ∧
    (reset confirm s).current_task = "" := by
  have hcond : ¬(RESET_CONFIRMATION_SECONDS < s.counter ∧ confirm = false) := by
    rcases h with h | h
    · exact fun hc => absurd hc.1 (not_lt.mpr h)
    · intro hc
      rw [h] at hc
      exact absurd hc.2 (by simp)
  simp [reset, hcond, elapsed]

theorem c5_witness :
    (c5State.counter ≤ RESET_CONFIRMATION_SECONDS ∨ true = true) ∧
    elapsed 0 (reset true c5State) = 0 ∧ (reset true c5State).is_running = false ∧
    (reset true c5State).start_timestamp = none ∧
    (reset true c5State).current_task = "" := by
  have h := c5_reset_reaches_zero c5State true 0 (Or.inr rfl)
  exact ⟨Or.inr rfl, h.1, h.2.1, h.2.2.1, h.2.2.2⟩

/-! ## C6: adjust_time -/

/-- C6: `adjust_time` sets the banked total to
`max 0 (banked + delta)`, and `adjust_time delta` followed by
`adjust_time (-delta)` restores the elapsed value whenever neither clamp
fired on the first call.  The nonnegativity hypotheses are the data-model
invariant of reachable timer states. -/
theorem c6_adjust_roundtrip (s : TimerState) (d : ℤ) (now : ℚ)
    (hc : 0 ≤ s.counter) (he : 0 ≤ s.elapsed_time_before_pause) :
    (adjust_time d s).elapsed_time_before_pause
        = max 0 (s.elapsed_time_before_pause + (d : ℚ)) ∧
    (0 ≤ s.counter + (d : ℚ) → 0 ≤ s.elapsed_time_before_pause + (d : ℚ) →
      elapsed now (adjust_time (-d) (adjust_time d s)) = elapsed now s) := by
  refine ⟨rfl, ?_⟩
  intro h1 h2
  have e1 : max 0 (max 0 (s.counter + (d : ℚ)) + ((-d : ℤ) : ℚ)) = s.counter := by
    push_cast
    rw [max_eq_right h1, add_neg_cancel_right, max_eq_right hc]
  have e2 : max 0 (max 0 (s.elapsed_time_before_pause + (d : ℚ)) + ((-d : ℤ) : ℚ))
      = s.elapsed_time_before_pause := by
    push_cast
    rw [max_eq_right h2, add_neg_cancel_right, max_eq_right he]
  simp only [elapsed, adjust_time]
  rw [e1, e2]

theorem c6_witness :
    (0 ≤ c6State.counter ∧ 0 ≤ c6State.elapsed_time_before_pause ∧
      0 ≤ c6State.counter + ((-40 : ℤ) : ℚ) ∧
      0 ≤ c6State.elapsed_time_before_pause + ((-40 : ℤ) : ℚ)) ∧
    (adjust_time (-40) c6State).elapsed_time_before_pause
        = max 0 (c6State.elapsed_time_before_pause + ((-40 : ℤ) : ℚ)) ∧
    elapsed 0 (adjust_time (-(-40)) (adjust_time (-40) c6State)) = elapsed 0 c6State := by
  have h1 : (0 : ℚ) ≤ c6State.counter := by norm_num [c6State]
  have h2 : (0 : ℚ) ≤ c6State.elapsed_time_before_pause := by norm_num [c6State]
  have h3 : (0 : ℚ) ≤ c6State.counter + ((-40 : ℤ) : ℚ) := by norm_num [c6State]
  have h4 : (0 : ℚ) ≤ c6State.elapsed_time_before_pause + ((-40 : ℤ) : ℚ) := by
    norm_num [c6State]
  exact ⟨⟨h1, h2, h3, h4⟩, (c6_adjust_roundtrip c6State (-40) 0 h1 h2).1,
    (c6_adjust_roundtrip c6State (-40) 0 h1 h2).2 h3 h4⟩

/-! ## C7: update_progress -/

/-- C7: the progress computation divides total by goal and scales to percent
when the goal is positive (50.0 at 90 of 180; 111.1... = 1000/9 at 200 of
180, uncapped), and a zero or negative goal is guarded to 0. -/
theorem c7_progress_guarded (total goal : ℤ) :
    (0 < goal → update_progress_percentage total goal = (total : ℚ) / (goal : ℚ) * 100) ∧
    (goal ≤ 0 → update_progress_percentage total goal = 0) ∧
    update_progress_percentage 90 180 = 50 ∧
    update_progress_percentage 200 180 = 1000 / 9 := by
  refine ⟨fun h => ?_, fun h => ?_, ?_, ?_⟩
  · simp [update_progress_percentage, h]
  · simp [update_progress_percentage, not_lt.mpr h]
  · norm_num [update_progress_percentage]
  · norm_num [update_progress_percentage]

theorem c7_witness :
    ((0 : ℤ) < 180 ∧ update_progress_percentage 90 180 = ((90 : ℤ) : ℚ) / ((180 : ℤ) : ℚ) * 100) ∧
    ((0 : ℤ) ≤ 0 ∧ update_progress_percentage 7 0 = 0) :=
  ⟨⟨by norm_num, (c7_progress_guarded 90 180).1 (by norm_num)⟩,
   ⟨le_refl 0, (c7_progress_guarded 7 0).2.1 (le_refl 0)⟩⟩

/-! ## C10: sessions under one minute are not saved -/

/-- C10: with fewer than one whole minute on the counter, `add_to_log`
performs no append and leaves the timer and the log file unchanged. -/
theorem c10_short_session_not_saved (now : ℚ) (ts : String)
    (autoSave confirmReset copyFails writeFails : Bool) (s : TimerState) (fs : LogFS)
    (h : sessionMinutes s < 1) :
    add_to_log now ts autoSave confirmReset copyFails writeFails s fs
      = (s, fs, .tooShort) := by
  simp [add_to_log, h]

theorem c10_witness :
    sessionMinutes c10State < 1 ∧
    add_to_log 0 "2025-03-05 09:15:00" true true false false c10State ⟨none, 0, none⟩
      = (c10State, ⟨none, 0, none⟩, .tooShort) := by
  have h : sessionMinutes c10State < 1 := by
    norm_num [sessionMinutes, c10State]
  exact ⟨h, c10_short_session_not_saved 0 "2025-03-05 09:15:00" true true false false
    c10State ⟨none, 0, none⟩ h⟩

/-! ## Lemmas: decimal serialisation round-trips through the parser -/

theorem digitChar_isDigit (d : ℕ) (h : d < 10) : (Nat.digitChar d).isDigit = true := by
  interval_cases d <;> decide

theorem digitVal_digitChar (d : ℕ) (h : d < 10) : digitVal (Nat.digitChar d) = d := by
  interval_cases d <;> decide

theorem digitChar_not_space (d : ℕ) (h : d < 10) : pyIsSpace (Nat.digitChar d) = false := by
  interval_cases d <;> decide

theorem digitChar_not_sign (d : ℕ) (h : d < 10) :
    Nat.digitChar d ≠ '-' ∧ Nat.digitChar d ≠ '+' := by
  interval_cases d <;> exact ⟨by decide, by decide⟩

theorem natCharsRev_digits (fuel : ℕ) :
    ∀ n, ∀ c ∈ natCharsRev fuel n, ∃ d, d < 10 ∧ c = Nat.digitChar d := by
  induction fuel with
  | zero => intro n c hc; simp [natCharsRev] at hc
  | succ fuel ih =>
    intro n c hc
    cases n with
    | zero => simp [natCharsRev] at hc
    | succ m =>
      simp only [natCharsRev, List.mem_cons] at hc
      rcases hc with hc | hc
      · exact ⟨(m + 1) % 10, Nat.mod_lt _ (by norm_num), hc⟩
      · exact ih _ c hc

theorem parseDigitsAcc_append (xs ys : List Char) :
    ∀ a, parseDigitsAcc (xs ++ ys) a
      = match parseDigitsAcc xs a with
        | some v => parseDigitsAcc ys v
        | none => none := by
  induction xs with
  | nil => intro a; rfl
  | cons c cs ih =>
    intro a
    by_cases h : c.isDigit
    · simp [parseDigitsAcc, h, ih]
    · simp [parseDigitsAcc, h]

theorem parseDigitsAcc_natCharsRev (fuel : ℕ) :
    ∀ n a, n ≤ fuel →
      parseDigitsAcc ((natCharsRev fuel n).reverse) a
        = some (a * 10 ^ (natCharsRev fuel n).length + n) := by
  induction fuel with
  | zero =>
    intro n a h
    interval_cases n
    simp [natCharsRev, parseDigitsAcc]
  | succ fuel ih =>
    intro n a h
    cases n with
    | zero => simp [natCharsRev, parseDigitsAcc]
    | succ m =>
      have hq : (m + 1) / 10 ≤ fuel := by
        have := Nat.div_lt_self (Nat.succ_pos m) (by norm_num : 1 < 10)
        omega
      have hr : (m + 1) % 10 < 10 := Nat.mod_lt _ (by norm_num)
      simp only [natCharsRev, List.reverse_cons]
      rw [parseDigitsAcc_append]
      rw [ih _ a hq]
      simp only [parseDigitsAcc, digitChar_isDigit _ hr, if_true,
        digitVal_digitChar _ hr]
      have : 10 * (a * 10 ^ (natCharsRev fuel ((m + 1) / 10)).length + (m + 1) / 10)
            + (m + 1) % 10
          = a * 10 ^ ((natCharsRev fuel ((m + 1) / 10)).length + 1) + (m + 1) := by
        have hdm := Nat.div_add_mod (m + 1) 10
        ring_nf
        omega
      simp [this]

theorem digitChar_ne_underscore (d : ℕ) (h : d < 10) : Nat.digitChar d ≠ '_' := by
  interval_cases d <;> decide

theorem parseDigitsU_eq_acc :
    ∀ cs : List Char, (∀ c ∈ cs, c ≠ '_') →
      ∀ a, parseDigitsU cs a = parseDigitsAcc cs a := by
  intro cs
  induction cs with
  | nil => intro _ a; rfl
  | cons c cs ih =>
    intro h a
    have hc : c ≠ '_' := h c (List.mem_cons_self c cs)
    cases cs with
    | nil =>
      by_cases hd : c.isDigit <;> simp [parseDigitsU, parseDigitsAcc, hd]
    | cons c2 cs2 =>
      simp only [parseDigitsU, parseDigitsAcc, if_neg hc]
      by_cases hd : c.isDigit
      · simp only [if_pos hd]
        exact ih (fun x hx => h x (List.mem_cons_of_mem _ hx)) _
      · simp [hd]

theorem dropWhile_of_head_false {p : Char → Bool} :
    ∀ cs : List Char, (∀ c ∈ cs, p c = false) → cs.dropWhile p = cs := by
  intro cs h
  cases cs with
  | nil => rfl
  | cons a l => simp [List.dropWhile_cons, h a (List.mem_cons_self a l)]

theorem pyStrip_of_no_space (cs : List Char) (h : ∀ c ∈ cs, pyIsSpace c = false) :
    pyStrip cs = cs := by
  unfold pyStrip
  rw [dropWhile_of_head_false cs h,
    dropWhile_of_head_false cs.reverse (fun c hc => h c (List.mem_reverse.mp hc)),
    List.reverse_reverse]

theorem natCharsRev_ne_nil (m : ℕ) : natCharsRev (m + 1) (m + 1) ≠ [] := by
  simp [natCharsRev]

theorem pyInt_pyStrOfNat (n : ℕ) : pyInt (pyStrOfNat n) = some (n : ℤ) := by
  cases n with
  | zero => decide
  | succ m =>
    have hdig : ∀ c ∈ (natCharsRev (m + 1) (m + 1)).reverse, ∃ d, d < 10 ∧ c = Nat.digitChar d := by
      intro c hc
      exact natCharsRev_digits _ _ c (List.mem_reverse.mp hc)
    have hnospace : ∀ c ∈ (natCharsRev (m + 1) (m + 1)).reverse, pyIsSpace c = false := by
      intro c hc
      obtain ⟨d, hd, rfl⟩ := hdig c hc
      exact digitChar_not_space d hd
    have hne : (natCharsRev (m + 1) (m + 1)).reverse ≠ [] := by
      simp [natCharsRev_ne_nil]
    have hs : pyStrOfNat (m + 1) = ⟨(natCharsRev (m + 1) (m + 1)).reverse⟩ := by
      simp [pyStrOfNat]
    rw [hs]
    unfold pyInt
    cases hrev : (natCharsRev (m + 1) (m + 1)).reverse with
    | nil => exact absurd hrev hne
    | cons c rest =>
      have hc : c ∈ (natCharsRev (m + 1) (m + 1)).reverse := by
        rw [hrev]; exact List.mem_cons_self c rest
      obtain ⟨d, hd, rfl⟩ := hdig c hc
      have hsign := digitChar_not_sign d hd
      have hstrip : pyStrip (Nat.digitChar d :: rest) = Nat.digitChar d :: rest := by
        apply pyStrip_of_no_space
        intro x hx
        apply hnospace
        rw [hrev]; exact hx
      have hval : parseDigitsAcc ((natCharsRev (m + 1) (m + 1)).reverse) 0
          = some (0 * 10 ^ (natCharsRev (m + 1) (m + 1)).length + (m + 1)) :=
        parseDigitsAcc_natCharsRev (m + 1) (m + 1) 0 (le_refl _)
      rw [hrev] at hval
      simp only [zero_mul, zero_add] at hval
      have hrest : ∀ x ∈ rest, x ≠ '_' := by
        intro x hx
        have hxm : x ∈ (natCharsRev (m + 1) (m + 1)).reverse := by
          rw [hrev]; exact List.mem_cons_of_mem _ hx
        obtain ⟨d2, hd2, rfl⟩ := hdig x hxm
        exact digitChar_ne_underscore d2 hd2
      have hval2 : parseDigitsU rest (digitVal (Nat.digitChar d)) = some (m + 1) := by
        rw [parseDigitsU_eq_acc rest hrest]
        have := hval
        simp only [parseDigitsAcc, digitChar_isDigit d hd, if_true] at this
        simpa using this
      simp [hstrip, hsign.1, hsign.2, parseNatDigits, digitChar_isDigit d hd, hval2]

theorem pyInt_pyStrOfInt (m : ℤ) (h : 0 ≤ m) : pyInt (pyStrOfInt m) = some m := by
  have hneg : ¬m < 0 := not_lt.mpr h
  rw [pyStrOfInt, if_neg hneg, pyInt_pyStrOfNat]
  congr 1
  exact Int.natAbs_of_nonneg h

/-! ## Lemmas: the CSV writer round-trips through the reader -/

theorem string_eta (s : String) : (⟨s.data⟩ : String) = s := by
  cases s
  rfl

theorem csvGo_inQ_escQ (f : List Char) :
    ∀ acc rest, csvGo .inQ acc (escQ f ++ '"' :: rest) = csvGo .quoteInQ (acc ++ f) rest := by
  induction f with
  | nil =>
    intro acc rest
    simp [escQ, csvGo]
  | cons c f ih =>
    intro acc rest
    by_cases hc : c = '"'
    · subst hc
      have step : csvGo .inQ acc (escQ ('"' :: f) ++ '"' :: rest)
          = csvGo .inQ (acc ++ ['"']) (escQ f ++ '"' :: rest) := rfl
      rw [step, ih (acc ++ ['"']) rest]
      simp
    · have hesc : escQ (c :: f) ++ '"' :: rest = c :: (escQ f ++ '"' :: rest) := by
        simp [escQ, hc]
      rw [hesc]
      have step : csvGo .inQ acc (c :: (escQ f ++ '"' :: rest))
          = csvGo .inQ (acc ++ [c]) (escQ f ++ '"' :: rest) := by
        simp only [csvGo, if_neg hc]
      rw [step, ih (acc ++ [c]) rest]
      simp

theorem csvGo_startF_join (f : String) (fs : List String) :
    csvGo .startF [] (joinSemi ((f :: fs).map quoteField)) = f :: fs := by
  induction fs generalizing f with
  | nil =>
    have h1 : joinSemi ([f].map quoteField) = '"' :: (escQ f.data ++ '"' :: []) := by
      simp [joinSemi, quoteField]
    rw [h1]
    simp only [csvGo, if_pos rfl]
    rw [csvGo_inQ_escQ f.data [] []]
    simp [csvGo, string_eta]
  | cons g gs ih =>
    have h1 : joinSemi ((f :: g :: gs).map quoteField)
        = '"' :: (escQ f.data ++ '"' :: (';' :: joinSemi ((g :: gs).map quoteField))) := by
      simp [joinSemi, quoteField]
    rw [h1]
    simp only [csvGo, if_pos rfl]
    rw [csvGo_inQ_escQ f.data [] (';' :: joinSemi ((g :: gs).map quoteField))]
    simp only [List.nil_append, csvGo, reduceIte]
    rw [ih g]
    simp [string_eta]

theorem csvParseLine_writeRow (f : String) (fs : List String) :
    csvParseLine (csvWriteRow (f :: fs)) = f :: fs := by
  have hgo := csvGo_startF_join f fs
  rw [csvWriteRow, csvParseLine]
  cases hj : joinSemi ((f :: fs).map quoteField) with
  | nil =>
    exfalso
    cases fs <;> simp [joinSemi, quoteField] at hj
  | cons c cs =>
    rw [hj] at hgo
    exact hgo

/-! ## Lemmas: the log store -/

theorem recordRows_save_ok (ts ct : String) (m : ℤ) (fs : LogFS)
    (hfs : ∀ ls, fs.log = some ls → (ls = [] ↔ fs.logSize = 0)) :
    (save_to_log false false ts m ct fs).2 = true ∧
    recordRows (save_to_log false false ts m ct fs).1
      = recordRows fs
        ++ [csvParseLine (csvWriteRow [ts, pyStrOfInt m,
              if ct = "" then "Bez opisu" else ct])] := by
  cases hlog : fs.log with
  | none =>
    constructor
    · simp [save_to_log, hlog]
    · simp [save_to_log, recordRows, hlog]
  | some ls =>
    have hiff := hfs ls hlog
    rcases Nat.eq_zero_or_pos fs.logSize with hsz | hsz
    · have hls : ls = [] := hiff.mpr hsz
      subst hls
      constructor
      · simp [save_to_log, hlog, hsz]
      · simp [save_to_log, recordRows, hlog, hsz]
    · have hls : ls ≠ [] := by
        intro h
        have := hiff.mp h
        omega
      have hmap : (ls.map csvParseLine) ≠ [] := by
        simp [hls]
      constructor
      · simp [save_to_log, hlog, hsz, apply_ite]
      · simp only [save_to_log, recordRows, hlog, hsz, apply_ite, Bool.and_false,
          Bool.false_eq_true, if_false, ite_self, Option.isSome_some, Option.getD_some,
          Bool.true_and, decide_eq_true_eq, if_pos hsz, List.append_nil, List.nil_append]
        simp only [if_true, List.nil_append]
        rw [List.map_append, List.drop_append_of_le_length
          (by simpa using Nat.one_le_iff_ne_zero.mpr (by simpa using hls))]
        simp

theorem mem_dictAppend (data : List (PyDate × List LogRec)) (d : PyDate) (r : LogRec) :
    ∃ l, (d, l) ∈ dictAppend data d r ∧ r ∈ l := by
  induction data with
  | nil => exact ⟨[r], by simp [dictAppend], by simp⟩
  | cons p rest ih =>
    obtain ⟨k, l⟩ := p
    by_cases hk : k = d
    · subst hk
      refine ⟨l ++ [r], ?_, by simp⟩
      simp [dictAppend]
    · obtain ⟨l', h1, h2⟩ := ih
      refine ⟨l', ?_, h2⟩
      simp only [dictAppend, if_neg hk]
      exact List.mem_cons_of_mem _ h1

theorem loadRowStep_none (sd ed : PyDate) (data : List (PyDate × List LogRec))
    (row : List String) (h : parseLogRow row = none) :
    loadRowStep sd ed data row = data := by
  simp [loadRowStep, h]

theorem recCount_dictAppend (data : List (PyDate × List LogRec)) (d : PyDate) (r : LogRec) :
    recCount (dictAppend data d r) = recCount data + 1 := by
  induction data with
  | nil => simp [dictAppend, recCount]
  | cons p rest ih =>
    obtain ⟨k, l⟩ := p
    by_cases hk : k = d
    · subst hk
      simp [dictAppend, recCount]
      omega
    · simp only [dictAppend, if_neg hk]
      simp only [recCount, List.map_cons, List.sum_cons] at ih ⊢
      omega

theorem recCount_foldl (sd ed : PyDate) (rows : List (List String)) :
    ∀ data, (∀ row ∈ rows, ∃ r : PyDate × LogRec, parseLogRow row = some r ∧
        dateLe sd r.1 ∧ dateLe r.1 ed) →
      recCount (rows.foldl (loadRowStep sd ed) data) = recCount data + rows.length := by
  induction rows with
  | nil => intro data _; simp
  | cons row rows ih =>
    intro data h
    obtain ⟨r, hr, h1, h2⟩ := h row (List.mem_cons_self row rows)
    have hstep : loadRowStep sd ed data row = dictAppend data r.1 r.2 := by
      simp [loadRowStep, hr, h1, h2]
    simp only [List.foldl_cons, hstep]
    rw [ih _ (fun rw hrw => h rw (List.mem_cons_of_mem _ hrw))]
    rw [recCount_dictAppend]
    simp only [List.length_cons]
    omega

theorem sumRowStep_value (today : PyDate) (t : ℤ) (row : List String) :
    sumRowStep today t row = t + (rowMinutesOn today row).getD 0 := by
  rcases row with _ | ⟨a, _ | ⟨b, _ | ⟨c, rest⟩⟩⟩
  · simp [sumRowStep, rowMinutesOn]
  · simp [sumRowStep, rowMinutesOn]
  · simp [sumRowStep, rowMinutesOn]
  · cases hd : pyStrptimeDate (pyHead a) with
    | none => simp [sumRowStep, rowMinutesOn, hd]
    | some d =>
      by_cases hdt : d = today
      · cases hm : pyInt b with
        | none => simp [sumRowStep, rowMinutesOn, hd, hdt, hm]
        | some m => simp [sumRowStep, rowMinutesOn, hd, hdt, hm]
      · simp [sumRowStep, rowMinutesOn, hd, hdt]

theorem foldl_sumRowStep (today : PyDate) (rows : List (List String)) :
    ∀ t, rows.foldl (sumRowStep today) t
      = t + (rows.filterMap (rowMinutesOn today)).sum := by
  induction rows with
  | nil => intro t; simp
  | cons row rows ih =>
    intro t
    simp only [List.foldl_cons, sumRowStep_value, List.filterMap_cons]
    cases h : rowMinutesOn today row with
    | none => simp [ih]
    | some m =>
      simp only [Option.getD_some, ih, List.sum_cons]
      ring

/-! ## C2: append / load_range round-trip -/

/-- C2: appending a record (minutes ≥ 1, nonempty task text — the field
delimiter, quotes and spaces allowed in it) and then loading a date range
containing the record's date returns a group for that date containing the
record unchanged: same minutes, same task, same timestamp text.  The
`hfs` hypothesis is the file-system coherence of `st_size` (an existing
file whose row list is empty has size 0). -/
theorem c2_append_load_roundtrip (ts task : String) (m : ℤ) (d sd ed : PyDate)
    (fs : LogFS) (hm : 1 ≤ m) (htask : task ≠ "")
    (hdate : pyStrptimeDate (pyHead ts) = some d)
    (hsd : dateLe sd d) (hed : dateLe d ed)
    (hfs : ∀ ls, fs.log = some ls → (ls = [] ↔ fs.logSize = 0)) :
    (save_to_log false false ts m task fs).2 = true ∧
    ∃ l, (d, l) ∈ load_history_data sd ed (save_to_log false false ts m task fs).1 ∧
      (ts, m, task) ∈ l := by
  obtain ⟨hok, hrows⟩ := recordRows_save_ok ts task m fs hfs
  refine ⟨hok, ?_⟩
  have htd : (if task = "" then "Bez opisu" else task) = task := if_neg htask
  rw [htd] at hrows
  have hparse : csvParseLine (csvWriteRow [ts, pyStrOfInt m, task])
      = [ts, pyStrOfInt m, task] := csvParseLine_writeRow _ _
  have hrec : parseLogRow [ts, pyStrOfInt m, task] = some (d, (ts, m, task)) := by
    simp [parseLogRow, pyInt_pyStrOfInt m (by omega), hdate]
  rw [load_history_data, hrows, List.foldl_append]
  simp only [List.foldl_cons, List.foldl_nil]
  rw [hparse]
  have hstep : loadRowStep sd ed ((recordRows fs).foldl (loadRowStep sd ed) [])
      [ts, pyStrOfInt m, task]
      = dictAppend ((recordRows fs).foldl (loadRowStep sd ed) []) d (ts, m, task) := by
    simp [loadRowStep, hrec, hsd, hed]
  rw [hstep]
  exact mem_dictAppend _ d (ts, m, task)

theorem c2_witness :
    ((1 : ℤ) ≤ 30 ∧ "pisanie; raport" ≠ "" ∧
      pyStrptimeDate (pyHead "2025-03-05 09:15:00") = some ⟨2025, 3, 5⟩ ∧
      dateLe ⟨2025, 3, 1⟩ ⟨2025, 3, 5⟩ ∧ dateLe ⟨2025, 3, 5⟩ ⟨2025, 3, 31⟩) ∧
    (save_to_log false false "2025-03-05 09:15:00" 30 "pisanie; raport"
        ⟨none, 0, none⟩).2 = true ∧
    ∃ l, (⟨2025, 3, 5⟩, l) ∈ load_history_data ⟨2025, 3, 1⟩ ⟨2025, 3, 31⟩
        (save_to_log false false "2025-03-05 09:15:00" 30 "pisanie; raport"
          ⟨none, 0, none⟩).1 ∧
      ("2025-03-05 09:15:00", 30, "pisanie; raport") ∈ l := by
  refine ⟨⟨by norm_num, by decide, by decide, by decide, by decide⟩, ?_⟩
  exact c2_append_load_roundtrip "2025-03-05 09:15:00" "pisanie; raport" 30
    ⟨2025, 3, 5⟩ ⟨2025, 3, 1⟩ ⟨2025, 3, 31⟩ ⟨none, 0, none⟩
    (by norm_num) (by decide) (by decide) (by decide) (by decide)
    (fun ls h => by simp at h)

/-! ## C3: same-day aggregation -/

/-- C3: for every log-file content and date, `read_and_sum_today` returns
exactly the sum of the minutes of the well-formed data rows whose date
component equals that date; rows of other dates and malformed rows
contribute nothing, whatever their interleaving in the file. -/
theorem c3_sum_for_date (today : PyDate) (fs : LogFS) :
    read_and_sum_today today fs
      = ((recordRows fs).filterMap (rowMinutesOn today)).sum := by
  rw [read_and_sum_today, foldl_sumRowStep]
  simp

/-! ## Lemmas: the multi-line reader agrees with the per-line model on
self-contained lines -/

theorem csvGoLine_inl_csvGo :
    ∀ (input : List Char) (st : CsvSt) (flds : List String) (acc : List Char)
      (row : List String), csvGoLine st flds acc input = .inl row →
      row = flds ++ csvGo st acc input := by
  intro input
  induction input with
  | nil =>
    intro st flds acc row h
    cases st with
    | inQ => simp [csvGoLine] at h
    | startF =>
      injection h with h2
      rw [← h2]
      rfl
    | inF =>
      injection h with h2
      rw [← h2]
      rfl
    | quoteInQ =>
      injection h with h2
      rw [← h2]
      rfl
  | cons c cs ih =>
    intro st flds acc row h
    cases st with
    | startF =>
      by_cases h1 : c = '"'
      · subst h1
        simp only [csvGoLine, reduceIte] at h
        rw [ih _ _ _ _ h]
        simp [csvGo]
      · by_cases h2 : c = ';'
        · subst h2
          simp only [csvGoLine, reduceIte] at h
          rw [ih _ _ _ _ h]
          simp [csvGo]
        · simp only [csvGoLine, if_neg h1, if_neg h2] at h
          rw [ih _ _ _ _ h]
          simp [csvGo, if_neg h1, if_neg h2]
    | inF =>
      by_cases h2 : c = ';'
      · subst h2
        simp only [csvGoLine, reduceIte] at h
        rw [ih _ _ _ _ h]
        simp [csvGo]
      · simp only [csvGoLine, if_neg h2] at h
        rw [ih _ _ _ _ h]
        simp [csvGo, if_neg h2]
    | inQ =>
      by_cases h1 : c = '"'
      · subst h1
        simp only [csvGoLine, reduceIte] at h
        rw [ih _ _ _ _ h]
        simp [csvGo]
      · simp only [csvGoLine, if_neg h1] at h
        rw [ih _ _ _ _ h]
        simp [csvGo, if_neg h1]
    | quoteInQ =>
      by_cases h1 : c = '"'
      · subst h1
        simp only [csvGoLine, reduceIte] at h
        rw [ih _ _ _ _ h]
        simp [csvGo]
      · by_cases h2 : c = ';'
        · subst h2
          simp only [csvGoLine, if_neg h1, reduceIte] at h
          rw [ih _ _ _ _ h]
          simp [csvGo, if_neg h1]
        · simp only [csvGoLine, if_neg h1, if_neg h2] at h
          rw [ih _ _ _ _ h]
          simp [csvGo, if_neg h1, if_neg h2]

theorem csvReaderAux_cons_closed (l : String) (rest : List String)
    (hl : lineClosed l = true) :
    csvReaderAux none (l :: rest) = csvParseLine l :: csvReaderAux none rest := by
  obtain ⟨data⟩ := l
  cases data with
  | nil => rfl
  | cons c cs =>
    have hl2 : ∃ row, csvGoLine .startF [] [] (c :: cs) = .inl row := by
      cases hres : csvGoLine .startF [] [] (c :: cs) with
      | inl row => exact ⟨row, rfl⟩
      | inr st =>
        unfold lineClosed at hl
        simp only [hres] at hl
        simp at hl
    obtain ⟨row, hres⟩ := hl2
    have hrow := csvGoLine_inl_csvGo (c :: cs) .startF [] [] row hres
    simp only [List.nil_append] at hrow
    have h1 : csvReaderAux none (⟨c :: cs⟩ :: rest)
        = match csvGoLine .startF [] [] (c :: cs) with
          | .inl row => row :: csvReaderAux none rest
          | .inr st => csvReaderAux (some st) rest := rfl
    rw [h1, hres, hrow]
    rfl

theorem csvReaderRows_of_closed (lines : List String)
    (h : ∀ l ∈ lines, lineClosed l = true) :
    csvReaderRows lines = lines.map csvParseLine := by
  induction lines with
  | nil => rfl
  | cons l rest ih =>
    rw [csvReaderRows, csvReaderAux_cons_closed l rest (h l (List.mem_cons_self l rest)),
      List.map_cons]
    congr 1
    exact ih (fun x hx => h x (List.mem_cons_of_mem _ hx))

theorem csvGoLine_inQ_escQ (f : List Char) :
    ∀ flds acc rest,
      csvGoLine .inQ flds acc (escQ f ++ '"' :: rest)
        = csvGoLine .quoteInQ flds (acc ++ f) rest := by
  induction f with
  | nil =>
    intro flds acc rest
    simp [escQ, csvGoLine]
  | cons c f ih =>
    intro flds acc rest
    by_cases hc : c = '"'
    · subst hc
      have step : csvGoLine .inQ flds acc (escQ ('"' :: f) ++ '"' :: rest)
          = csvGoLine .inQ flds (acc ++ ['"']) (escQ f ++ '"' :: rest) := rfl
      rw [step, ih flds (acc ++ ['"']) rest]
      simp
    · have hesc : escQ (c :: f) ++ '"' :: rest = c :: (escQ f ++ '"' :: rest) := by
        simp [escQ, hc]
      rw [hesc]
      have step : csvGoLine .inQ flds acc (c :: (escQ f ++ '"' :: rest))
          = csvGoLine .inQ flds (acc ++ [c]) (escQ f ++ '"' :: rest) := by
        simp only [csvGoLine, if_neg hc]
      rw [step, ih flds (acc ++ [c]) rest]
      simp

theorem csvGoLine_startF_join (f : String) (fs : List String) :
    ∀ flds, csvGoLine .startF flds [] (joinSemi ((f :: fs).map quoteField))
      = .inl (flds ++ f :: fs) := by
  induction fs generalizing f with
  | nil =>
    intro flds
    have h1 : joinSemi ([f].map quoteField) = '"' :: (escQ f.data ++ '"' :: []) := by
      simp [joinSemi, quoteField]
    rw [h1]
    simp only [csvGoLine, reduceIte]
    rw [csvGoLine_inQ_escQ f.data flds [] []]
    simp [csvGoLine, string_eta]
  | cons g gs ih =>
    intro flds
    have h1 : joinSemi ((f :: g :: gs).map quoteField)
        = '"' :: (escQ f.data ++ '"' :: (';' :: joinSemi ((g :: gs).map quoteField))) := by
      simp [joinSemi, quoteField]
    rw [h1]
    simp only [csvGoLine, reduceIte]
    rw [csvGoLine_inQ_escQ f.data flds [] (';' :: joinSemi ((g :: gs).map quoteField))]
    simp only [List.nil_append, csvGoLine, reduceIte]
    rw [ih g]
    simp [string_eta]

theorem lineClosed_writeRow (f : String) (fs : List String) :
    lineClosed (csvWriteRow (f :: fs)) = true := by
  cases hj : joinSemi ((f :: fs).map quoteField) with
  | nil =>
    exfalso
    cases fs <;> simp [joinSemi, quoteField] at hj
  | cons c cs =>
    have hw : csvWriteRow (f :: fs) = ⟨c :: cs⟩ := by rw [csvWriteRow, hj]
    have hjoin := csvGoLine_startF_join f fs []
    rw [hj] at hjoin
    simp only [List.nil_append] at hjoin
    rw [hw]
    simp [lineClosed, hjoin]

/-! ## C4: one malformed line loses only that entry -/

/-- C4 counterexample: a wrong-field-count line that opens an unterminated
quote does not lose only its own entry.  In the file `header`, `"broken`,
`"2025-01-02 09:00:00";"10";"czytanie"` the real `csv.reader` continues the
open quoted field across the line boundary, merging the following
well-formed record into one unparseable row: zero records load, while the
same file without the bad line loads its one record. -/
theorem c4_counterexample :
    parseLogRow (csvParseLine "\"broken") = none ∧
    load_history_data_reader ⟨2025, 1, 1⟩ ⟨2025, 1, 2⟩
        ⟨some [headerLine, "\"broken",
          csvWriteRow ["2025-01-02 09:00:00", "10", "czytanie"]], 100, none⟩ = [] ∧
    load_history_data_reader ⟨2025, 1, 1⟩ ⟨2025, 1, 2⟩
        ⟨some [headerLine,
          csvWriteRow ["2025-01-02 09:00:00", "10", "czytanie"]], 80, none⟩
      = [(⟨2025, 1, 2⟩, [("2025-01-02 09:00:00", 10, "czytanie")])] := by
  refine ⟨by decide, by decide, by decide⟩

/-- C4 (amended): a malformed line that is a complete CSV record — it does
not leave a quoted field open at its end (`lineClosed`) — is individually
skipped: inserting it anywhere among the data records changes nothing, and
a file of N well-formed in-range records (all lines self-contained) loads
exactly N records; the reader is a total function, so no exception escapes
a bad line.  A malformed line with an unterminated quote instead merges the
following lines into one record and can lose them too (counterexample). -/
theorem c4_record_malformed_skipped (hdr b : String) (pre post : List String)
    (sd ed : PyDate) (sz sz' : ℕ) (bak bak' : Option (List String))
    (hhdr : lineClosed hdr = true) (hbc : lineClosed b = true)
    (hpre : ∀ l ∈ pre, lineClosed l = true) (hpost : ∀ l ∈ post, lineClosed l = true)
    (hb : parseLogRow (csvParseLine b) = none) :
    load_history_data_reader sd ed ⟨some (hdr :: (pre ++ b :: post)), sz, bak⟩
      = load_history_data_reader sd ed ⟨some (hdr :: (pre ++ post)), sz', bak'⟩ ∧
    ((∀ l ∈ pre ++ post, ∃ r : PyDate × LogRec,
        parseLogRow (csvParseLine l) = some r ∧ dateLe sd r.1 ∧ dateLe r.1 ed) →
      recCount (load_history_data_reader sd ed ⟨some (hdr :: (pre ++ post)), sz', bak'⟩)
        = (pre ++ post).length) := by
  have hclosed1 : ∀ l ∈ hdr :: (pre ++ b :: post), lineClosed l = true := by
    intro l hl
    rcases List.mem_cons.mp hl with rfl | hl
    · exact hhdr
    rcases List.mem_append.mp hl with hl | hl
    · exact hpre l hl
    rcases List.mem_cons.mp hl with rfl | hl
    · exact hbc
    · exact hpost l hl
  have hclosed2 : ∀ l ∈ hdr :: (pre ++ post), lineClosed l = true := by
    intro l hl
    rcases List.mem_cons.mp hl with rfl | hl
    · exact hhdr
    rcases List.mem_append.mp hl with hl | hl
    · exact hpre l hl
    · exact hpost l hl
  have e1 : readerRecordRows ⟨some (hdr :: (pre ++ b :: post)), sz, bak⟩
      = (pre ++ b :: post).map csvParseLine := by
    simp only [readerRecordRows, csvReaderRows_of_closed _ hclosed1,
      List.map_cons, List.drop_one, List.tail_cons]
  have e2 : readerRecordRows ⟨some (hdr :: (pre ++ post)), sz', bak'⟩
      = (pre ++ post).map csvParseLine := by
    simp only [readerRecordRows, csvReaderRows_of_closed _ hclosed2,
      List.map_cons, List.drop_one, List.tail_cons]
  constructor
  · simp only [load_history_data_reader, e1, e2, List.map_append,
      List.foldl_append, List.map_cons, List.foldl_cons]
    rw [loadRowStep_none sd ed _ _ hb]
  · intro h
    simp only [load_history_data_reader, e2]
    rw [recCount_foldl sd ed _ []
      (fun row hrow => by
        obtain ⟨l, hl, rfl⟩ := List.mem_map.mp hrow
        exact h l hl)]
    simp [recCount]

theorem c4_witness :
    (lineClosed headerLine = true ∧ lineClosed "zepsuta linia" = true ∧
      parseLogRow (csvParseLine "zepsuta linia") = none) ∧
    load_history_data_reader ⟨2025, 1, 1⟩ ⟨2025, 1, 2⟩
        ⟨some (headerLine :: ([csvWriteRow ["2025-01-01 09:00:00", "30", "pisanie"]]
          ++ "zepsuta linia" :: [csvWriteRow ["2025-01-02 09:00:00", "10", "czytanie"]])),
          200, none⟩
      = load_history_data_reader ⟨2025, 1, 1⟩ ⟨2025, 1, 2⟩
        ⟨some (headerLine :: ([csvWriteRow ["2025-01-01 09:00:00", "30", "pisanie"]]
          ++ [csvWriteRow ["2025-01-02 09:00:00", "10", "czytanie"]])), 150, none⟩ ∧
    recCount (load_history_data_reader ⟨2025, 1, 1⟩ ⟨2025, 1, 2⟩
        ⟨some (headerLine :: ([csvWriteRow ["2025-01-01 09:00:00", "30", "pisanie"]]
          ++ [csvWriteRow ["2025-01-02 09:00:00", "10", "czytanie"]])), 150, none⟩)
      = ([csvWriteRow ["2025-01-01 09:00:00", "30", "pisanie"]]
          ++ [csvWriteRow ["2025-01-02 09:00:00", "10", "czytanie"]]).length := by
  have hb : parseLogRow (csvParseLine "zepsuta linia") = none := by decide
  have h := c4_record_malformed_skipped headerLine "zepsuta linia"
    [csvWriteRow ["2025-01-01 09:00:00", "30", "pisanie"]]
    [csvWriteRow ["2025-01-02 09:00:00", "10", "czytanie"]]
    ⟨2025, 1, 1⟩ ⟨2025, 1, 2⟩ 200 150 none none
    (by decide) (by decide)
    (fun l hl => by rcases List.mem_singleton.mp hl with rfl; decide)
    (fun l hl => by rcases List.mem_singleton.mp hl with rfl; decide)
    hb
  refine ⟨⟨by decide, by decide, hb⟩, h.1, h.2 ?_⟩
  intro l hl
  rcases List.mem_append.mp hl with hl | hl
  · rcases List.mem_singleton.mp hl with rfl
    exact ⟨(⟨2025, 1, 1⟩, ("2025-01-01 09:00:00", 30, "pisanie")), by decide, by decide, by decide⟩
  · rcases List.mem_singleton.mp hl with rfl
    exact ⟨(⟨2025, 1, 2⟩, ("2025-01-02 09:00:00", 10, "czytanie")), by decide, by decide, by decide⟩

/-! ## C8: backup behaviour of save_to_log -/

/-- C8 counterexample: when the backup copy fails (`shutil.copy2` raises
`IOError`), the shared `except IOError` handler returns `False` and the
record is NOT appended — the file is returned completely unchanged, so a
backup failure does prevent the append. -/
theorem c8_counterexample :
    save_to_log true false "2025-01-01 10:00:00" 5 "zadanie" c8FS = (c8FS, false) := rfl

/-- C8 (amended): a backup copy of the log is made before writing exactly
when the file exceeds the fixed 1 MiB threshold; but the backup is not
best-effort — when the backup copy fails on a file over the threshold,
`save_to_log` aborts, appends nothing and reports failure. -/
theorem c8_backup_exactly_at_threshold (wfl : Bool) (ts ct : String) (m : ℤ) (fs : LogFS) :
    ((save_to_log false wfl ts m ct fs).1.backup
        = if fs.log.isSome ∧ 1024 * 1024 < fs.logSize then fs.log else fs.backup) ∧
    (fs.log.isSome = true → 1024 * 1024 < fs.logSize →
      save_to_log true wfl ts m ct fs = (fs, false)) := by
  refine ⟨?_, ?_⟩
  · by_cases h1 : fs.log.isSome = true
    · by_cases h2 : 1024 * 1024 < fs.logSize
      · cases wfl <;> simp [save_to_log, h1, h2]
      · cases wfl <;> simp [save_to_log, h1, h2]
    · by_cases h2 : 1024 * 1024 < fs.logSize
      · cases wfl <;> simp [save_to_log, h1, h2]
      · cases wfl <;> simp [save_to_log, h1, h2]
  · intro h1 h2
    simp [save_to_log, h1, h2]

theorem c8_witness :
    ((save_to_log false false "2025-01-01 10:00:00" 5 "zadanie" c8FS).1.backup
        = if c8FS.log.isSome ∧ 1024 * 1024 < c8FS.logSize then c8FS.log else c8FS.backup) ∧
    (c8FS.log.isSome = true ∧ 1024 * 1024 < c8FS.logSize ∧
      save_to_log true false "2025-01-01 10:00:00" 5 "zadanie" c8FS = (c8FS, false)) := by
  have h := c8_backup_exactly_at_threshold false "2025-01-01 10:00:00" "zadanie" 5 c8FS
  exact ⟨h.1, rfl, by norm_num [c8FS], h.2 rfl (by norm_num [c8FS])⟩

/-! ## C9: add_to_log saves and resets -/

/-- C9 counterexample: with the `auto_save` configuration flag off, a
successful append does not reset the timer — the session is saved but the
elapsed value stays at 120 seconds. -/
theorem c9_counterexample :
    (add_to_log 0 "2025-03-05 09:15:00" false true false false c9Timer ⟨none, 0, none⟩).2.2
      = .saved ∧
    elapsed 0 (add_to_log 0 "2025-03-05 09:15:00" false true false false c9Timer
      ⟨none, 0, none⟩).1 ≠ 0 := by
  have hm : sessionMinutes c9Timer = 2 := by
    norm_num [sessionMinutes, c9Timer]
  have hrun : c9Timer.is_running = false := rfl
  have htask : c9Timer.current_task = "zadanie" := rfl
  have hsave : (save_to_log false false "2025-03-05 09:15:00" 2 "zadanie"
      ⟨none, 0, none⟩).2 = true := rfl
  have hres : add_to_log 0 "2025-03-05 09:15:00" false true false false c9Timer
      ⟨none, 0, none⟩
      = (c9Timer, (save_to_log false false "2025-03-05 09:15:00" 2 "zadanie"
          ⟨none, 0, none⟩).1, .saved) := by
    simp [add_to_log, hm, hrun, htask, hsave]
  rw [hres]
  refine ⟨rfl, ?_⟩
  norm_num [elapsed, c9Timer]

/-- C9 (amended): with at least one whole minute on the counter, a working
backup and write, `auto_save` enabled and the reset confirmation granted,
`add_to_log` reads the whole minutes from the counter, appends exactly one
record `(timestamp, minutes, task)` to the log, and resets the timer to the
zero state (elapsed 0, paused, task cleared).  Without `auto_save` (or with
the confirmation declined) the record is still appended but the timer is
not reset, as the counterexample shows. -/
theorem c9_save_appends_and_resets (now now2 : ℚ) (ts : String) (s : TimerState)
    (fs : LogFS) (hm : 1 ≤ sessionMinutes s)
    (hfs : ∀ ls, fs.log = some ls → (ls = [] ↔ fs.logSize = 0)) :
    (add_to_log now ts true true false false s fs).2.2 = .saved ∧
    recordRows (add_to_log now ts true true false false s fs).2.1
      = recordRows fs ++
        [csvParseLine (csvWriteRow [ts, pyStrOfInt (sessionMinutes s),
          if s.current_task = "" then "Bez opisu" else s.current_task])] ∧
    elapsed now2 (add_to_log now ts true true false false s fs).1 = 0 ∧
    (add_to_log now ts true true false false s fs).1.is_running = false ∧
    (add_to_log now ts true true false false s fs).1.current_task = "" := by
  have hts : (if s.is_running = true then stop now s else s).current_task
      = s.current_task := by
    by_cases h : s.is_running = true
    · simp only [if_pos h, stop, h]
      cases hst : s.start_timestamp <;> simp
    · simp [h]
  obtain ⟨hok, hrows⟩ := recordRows_save_ok ts s.current_task (sessionMinutes s) fs hfs
  have hlt : ¬(sessionMinutes s < 1) := not_lt.mpr hm
  have hres : add_to_log now ts true true false false s fs
      = (reset true (if s.is_running = true then stop now s else s),
         (save_to_log false false ts (sessionMinutes s) s.current_task fs).1, .saved) := by
    simp only [add_to_log, if_neg hlt, hts, hok, if_true, reduceIte]
  have hzero : ∀ s2 : TimerState, elapsed now2 (reset true s2) = 0 ∧
      (reset true s2).is_running = false ∧ (reset true s2).current_task = "" := by
    intro s2
    simp [reset, elapsed]
  rw [hres]
  exact ⟨rfl, hrows, (hzero _).1, (hzero _).2.1, (hzero _).2.2⟩

theorem c9_witness :
    1 ≤ sessionMinutes c9TimerW ∧
    ((add_to_log 5 "2025-03-05 09:15:00" true true false false c9TimerW
        ⟨none, 0, none⟩).2.2 = .saved ∧
     recordRows (add_to_log 5 "2025-03-05 09:15:00" true true false false c9TimerW
        ⟨none, 0, none⟩).2.1
       = recordRows ⟨none, 0, none⟩ ++
         [csvParseLine (csvWriteRow ["2025-03-05 09:15:00",
            pyStrOfInt (sessionMinutes c9TimerW),
            if c9TimerW.current_task = "" then "Bez opisu" else c9TimerW.current_task])] ∧
     elapsed 7 (add_to_log 5 "2025-03-05 09:15:00" true true false false c9TimerW
        ⟨none, 0, none⟩).1 = 0 ∧
     (add_to_log 5 "2025-03-05 09:15:00" true true false false c9TimerW
        ⟨none, 0, none⟩).1.is_running = false ∧
     (add_to_log 5 "2025-03-05 09:15:00" true true false false c9TimerW
        ⟨none, 0, none⟩).1.current_task = "") := by
  have hm : (1 : ℤ) ≤ sessionMinutes c9TimerW := by
    norm_num [sessionMinutes, c9TimerW]
  exact ⟨hm, c9_save_appends_and_resets 5 7 "2025-03-05 09:15:00" c9TimerW
    ⟨none, 0, none⟩ hm (fun ls h => by simp at h)⟩
